import Mathlib

/-!
Shallow embedding of the GoldenForgery/updater core (src/hash.rs,
src/manifest.rs, src/main.rs) and proofs about its claimed properties.

Rust strings are modelled as lists of characters (`RStr`); Rust's
byte-oriented `str::len` is modelled by `rustLen`, which sums the UTF-8
byte size of each character.  Fallible Rust functions returning
`Result<_, Error>` are modelled with `Except Error _`; a `panic!`
(e.g. `Option::unwrap` on `None`) is modelled by `Option.none` at the
level of the whole computation.  Filesystem and network effects are
modelled by explicit environment records of oracle functions.
-/

deriving instance DecidableEq for Except

namespace Updater

/-- Model of a Rust `String` / `&str` as a list of characters. -/
abbrev RStr := List Char

/-- Coerce a Lean string literal into the model type. -/
def str (s : String) : RStr := s.data

/-- Number of bytes of the UTF-8 encoding of one character
(Rust `char::len_utf8`). -/
def charUtf8Size (c : Char) : Nat :=
  if c.toNat < 0x80 then 1
  else if c.toNat < 0x800 then 2
  else if c.toNat < 0x10000 then 3
  else 4

/-- Rust `str::len`: the length in bytes of the UTF-8 encoding. -/
def rustLen (s : RStr) : Nat := (s.map charUtf8Size).sum

/-- The error enum of `src/main.rs` (`enum Error`).  `RequestError` and
`ReqwestError` carry their payloads in Rust; the payloads play no role in
any claim, so they are dropped here. -/
inductive Error where
  | ManifestNotFound
  | RequestError
  | ReqwestError
  | InvalidHash
  | FileReadError
  | ReleaseZipNotFound
  | TmpDirCreateFail
  | GenericError
deriving DecidableEq

/-- `struct Hash(String)` of `src/hash.rs`. -/
structure Hash where
  val : RStr
deriving DecidableEq

/-- `impl FromStr for Hash` (src/hash.rs lines 9-19): rejects exactly the
inputs whose byte length differs from 64; no other check is made. -/
def Hash.from_str (s : RStr) : Except Error Hash :=
  if rustLen s ≠ 64 then Except.error Error.InvalidHash
  else Except.ok ⟨s⟩

/-- Local filesystem state visible to the reconciler: whether a path
exists (`Path::exists`) and the result of `std::fs::read`
(`none` models a read failure). -/
structure DiskState where
  pathExists : RStr → Bool
  contents : RStr → Option (List Nat)

/-- `impl TryFrom<&PathBuf> for Hash` (src/hash.rs lines 21-31):
read the file (failure becomes `FileReadError`), hash its bytes with
SHA-256, lower-hex encode, and validate with `from_str`.  The SHA-256 +
hex-encode composition is abstracted as the oracle `hashHex`. -/
def Hash.try_from (hashHex : List Nat → RStr) (disk : DiskState) (path : RStr) :
    Except Error Hash :=
  match disk.contents path with
  | none => Except.error Error.FileReadError
  | some data => Hash.from_str (hashHex data)

/-- `compare_files` (src/main.rs lines 39-60), iterating the manifest
entries in their (HashMap) iteration order, given here as a list.
Note the faithful translation of the `Ok` branch of the source:
`if existing_file_hash == manifest_hash { continue; }` falls through to
the end of the loop body when the hashes differ, so nothing is pushed in
either case — both arms of the inner `if` below are the recursive call. -/
def compare_files (hashHex : List Nat → RStr) (disk : DiskState) :
    List (Hash × RStr) → List RStr
  | [] => []
  | (manifest_hash, path) :: rest =>
    if disk.pathExists path = false then
      path :: compare_files hashHex disk rest
    else
      match Hash.try_from hashHex disk path with
      | Except.ok existing_file_hash =>
          if existing_file_hash = manifest_hash then
            compare_files hashHex disk rest
          else
            compare_files hashHex disk rest
      | Except.error _ => path :: compare_files hashHex disk rest

/-- The two-ASCII-space separator of a manifest line. -/
def sepStr : RStr := [' ', ' ']

/-- Rust `str::split_once(sep)`: split at the first occurrence of `sep`,
`none` when `sep` does not occur.  (`sep` is always `"  "` here, in
particular non-empty.) -/
def splitOnce (sep : RStr) : RStr → Option (RStr × RStr)
  | [] => none
  | c :: rest =>
    if sep.isPrefixOf (c :: rest) then some ([], (c :: rest).drop sep.length)
    else
      match splitOnce sep rest with
      | none => none
      | some (a, b) => some (c :: a, b)

/-- Split a string at every occurrence of the character `c`;
always returns at least one (possibly empty) part. -/
def splitOnChar (c : Char) : RStr → List RStr
  | [] => [[]]
  | d :: rest =>
    if d = c then [] :: splitOnChar c rest
    else
      match splitOnChar c rest with
      | [] => [[d]]
      | p :: ps => (d :: p) :: ps

/-- Drop one trailing carriage return, as Rust `str::lines` does per line. -/
def stripCr (l : RStr) : RStr :=
  if l.getLast? = some (Char.ofNat 13) then l.dropLast else l

/-- Rust `str::lines`: split on newline, drop the final empty piece
produced by a trailing newline (or by the empty string), and strip one
trailing carriage return from each line. -/
def rustLines (s : RStr) : List RStr :=
  let ps := splitOnChar (Char.ofNat 10) s
  (if ps.getLast? = some [] then ps.dropLast else ps).map stripCr

/-- Outcome of the per-line closure inside `impl TryFrom<String> for
Manifest` (src/manifest.rs lines 43-47): a line without the `"  "`
separator maps to `None` and is filtered out (`skip`); a line with the
separator applies `Hash::from_str(..).unwrap()`, which panics when the
digest field is rejected (`panicked`); otherwise the line yields an
entry. -/
inductive LineParse where
  | skip
  | panicked
  | entry (e : Hash × RStr)
deriving DecidableEq

/-- The per-line closure of the manifest parser. -/
def parseLine (l : RStr) : LineParse :=
  match splitOnce sepStr l with
  | none => LineParse.skip
  | some (hash_str, path_str) =>
    match Hash.from_str hash_str with
    | Except.error _ => LineParse.panicked
    | Except.ok h => LineParse.entry (h, path_str)

/-- Sequence the per-line results: any panicking line aborts the whole
parse (`none`); skipped lines contribute nothing; entries keep line
order. -/
def parseLinesAux : List RStr → Option (List (Hash × RStr))
  | [] => some []
  | l :: ls =>
    match parseLine l with
    | LineParse.panicked => none
    | LineParse.skip => parseLinesAux ls
    | LineParse.entry e => (parseLinesAux ls).map (fun es => e :: es)

/-- The entry sequence produced by the manifest parser before the
`collect::<HashMap<_, _>>()` step, in line order; `none` models a panic. -/
def parsedEntries (text : RStr) : Option (List (Hash × RStr)) :=
  parseLinesAux (rustLines text)

/-- One `HashMap::insert`: replace the value of an existing key,
otherwise add the pair.  (A Rust `HashMap`'s iteration order is
unspecified; this list order is a stand-in and no claim depends on it —
only membership and lookup do.) -/
def insertEntry : List (Hash × RStr) → Hash × RStr → List (Hash × RStr)
  | [], e => [e]
  | x :: rest, e =>
    if x.1 = e.1 then e :: rest else x :: insertEntry rest e

/-- `collect::<HashMap<Hash, PathBuf>>()`: fold the entries into a map;
a later entry with the same digest overwrites an earlier one. -/
def collectHashMap (es : List (Hash × RStr)) : List (Hash × RStr) :=
  es.foldl insertEntry []

/-- `impl TryFrom<String> for Manifest` (src/manifest.rs lines 37-54):
the `files` map of the parsed manifest, or `none` when the parse panics.
(The Rust function's return type is `Result`, but its only failure mode
is the `unwrap` panic; it never returns `Err`.) -/
def Manifest.tryFrom (text : RStr) : Option (List (Hash × RStr)) :=
  (parsedEntries text).map collectHashMap

/-- A release asset (octocrab `models::repos::Asset`, the fields used by
src/main.rs and src/manifest.rs). -/
structure Asset where
  name : RStr
  content_type : RStr
  browser_download_url : RStr
deriving DecidableEq

/-- A release (octocrab `models::repos::Release`, the field used). -/
structure Release where
  assets : List Asset
deriving DecidableEq

/-- The asset predicate of `update` (src/main.rs lines 67-69):
content type exactly `"application/zip"` and name starting with
`"golden-forgery"`. -/
def isPackageAsset (a : Asset) : Bool :=
  a.content_type == str "application/zip" &&
    (str "golden-forgery").isPrefixOf a.name

/-- Oracles for the effectful steps of `update` (src/main.rs lines
62-88): success of `TempDir::new`, the downloaded bytes per URL (`none`
models a `reqwest` failure), and success of `fs::write`, `File::open`,
`ZipArchive::new` and `ZipArchive::extract`. -/
structure UpdateEnv where
  tmpDirOk : Bool
  download : RStr → Option (List Nat)
  writeOk : Bool
  openOk : Bool
  zipOk : Bool
  extractOk : Bool

/-- Observable effects of one `update` call.  `tmpRemoved` records
whether the temporary staging directory was deleted before returning:
the source calls `TempDir::new(..)...into_path()`, and `into_path`
(tempdir crate) detaches the directory from the RAII guard so that it is
no longer deleted automatically; no other code removes it, hence every
branch below sets `tmpRemoved := false`. -/
structure UpdateEffects where
  selectedUrl : Option RStr
  tmpCreated : Bool
  tmpRemoved : Bool
  downloadedUrl : Option RStr
  wroteZip : Bool
  extractDest : Option RStr
deriving DecidableEq

/-- The body of `update` after the asset has been selected
(src/main.rs lines 73-87). -/
def updateAfterSelect (env : UpdateEnv) (url : RStr) :
    Except Error Unit × UpdateEffects :=
  if env.tmpDirOk = false then
    (Except.error Error.TmpDirCreateFail, ⟨some url, false, false, none, false, none⟩)
  else
    match env.download url with
    | none => (Except.error Error.ReqwestError, ⟨some url, true, false, some url, false, none⟩)
    | some _bytes =>
      if env.writeOk = false then
        (Except.error Error.GenericError, ⟨some url, true, false, some url, false, none⟩)
      else if env.openOk = false then
        (Except.error Error.GenericError, ⟨some url, true, false, some url, true, none⟩)
      else if env.zipOk = false then
        (Except.error Error.GenericError, ⟨some url, true, false, some url, true, none⟩)
      else if env.extractOk = false then
        (Except.error Error.GenericError, ⟨some url, true, false, some url, true, none⟩)
      else
        (Except.ok (), ⟨some url, true, false, some url, true, some (str ".")⟩)

/-- `update` (src/main.rs lines 62-88): select the first asset matching
`isPackageAsset` (`find`), failing with `ReleaseZipNotFound` when there
is none, then stage and extract. -/
def update (env : UpdateEnv) (r : Release) : Except Error Unit × UpdateEffects :=
  match r.assets.find? isPackageAsset with
  | none => (Except.error Error.ReleaseZipNotFound, ⟨none, false, false, none, false, none⟩)
  | some asset => updateAfterSelect env asset.browser_download_url

/-- `enum Status` of src/main.rs (lines 131-139).  The Rust `Error`
variant stores `err.to_string()`; the `Error` value itself is stored
here. -/
inductive Status where
  | Checking
  | Comparing (m : List (Hash × RStr))
  | Updating (files : List RStr)
  | Finished
  | Error (e : Error)
deriving DecidableEq

/-- `enum Message` of src/main.rs (lines 123-129), with the same
string-vs-`Error` remark as `Status`. -/
inductive Message where
  | BeginCompare (r : Release) (m : List (Hash × RStr))
  | BeginUpdate (r : Release) (files : List RStr)
  | Finish
  | Err (e : Error)
deriving DecidableEq

/-- Oracles for a whole run of the application: the result of the `i`-th
`check_update` call (release plus manifest entries in their iteration
order), the hashing oracle and disk state used by `compare_files`, and
the `UpdateEnv` of the `i`-th `update` call. -/
structure Env where
  check : Nat → Except Error (Release × List (Hash × RStr))
  hashHex : List Nat → RStr
  disk : DiskState
  upd : Nat → UpdateEnv

/-- The message that `check_update_task` (src/main.rs lines 22-27)
delivers for a given `check_update` result. -/
def checkMessage (res : Except Error (Release × List (Hash × RStr))) : Message :=
  match res with
  | Except.ok (r, m) => Message.BeginCompare r m
  | Except.error e => Message.Err e

/-- Output of one `Progress::update` call: the newly assigned status,
the messages the returned task will deliver (in order), the effects of
the `update` call it performs (if any), and the next indices into the
check and update oracles. -/
structure StepOut where
  status : Status
  msgs : List Message
  effects : Option UpdateEffects
  cIdx : Nat
  uIdx : Nat
deriving DecidableEq

/-- `Progress::update` (src/main.rs lines 157-190) as a pure step
function.  `BeginCompare` spawns the `compare_files` task (which cannot
fail, so its outcome is `BeginUpdate` or `Finish`); `BeginUpdate` spawns
the `update` task and *chains* `check_update_task()` after it, so two
messages follow; `Finish` and `Err` spawn nothing. -/
def stepMessage (env : Env) (cIdx uIdx : Nat) : Message → StepOut
  | Message.BeginCompare r m =>
    let invalid := compare_files env.hashHex env.disk m
    let next := if invalid.length > 0 then Message.BeginUpdate r invalid else Message.Finish
    ⟨Status.Comparing m, [next], none, cIdx, uIdx⟩
  | Message.BeginUpdate r files =>
    let res := update (env.upd uIdx) r
    let m1 := match res.1 with
      | Except.ok _ => Message.Finish
      | Except.error e => Message.Err e
    let m2 := checkMessage (env.check cIdx)
    ⟨Status.Updating files, [m1, m2], some res.2, cIdx + 1, uIdx + 1⟩
  | Message.Finish => ⟨Status.Finished, [], none, cIdx, uIdx⟩
  | Message.Err e => ⟨Status.Error e, [], none, cIdx, uIdx⟩

/-- Drive the message queue for at most `fuel` messages, starting from
the given pending queue and oracle indices.  Returns the sequence of
statuses assigned (in order) and the number of `update` calls made. -/
def runAux (env : Env) : Nat → List Message → Nat → Nat → List Status × Nat
  | 0, _, _, uIdx => ([], uIdx)
  | _ + 1, [], _, uIdx => ([], uIdx)
  | fuel + 1, msg :: queue, cIdx, uIdx =>
    let o := stepMessage env cIdx uIdx msg
    let rest := runAux env fuel (queue ++ o.msgs) o.cIdx o.uIdx
    (o.status :: rest.1, rest.2)

/-- A whole run of the application: `boot` (src/main.rs lines 29-33)
starts in the default status `Checking` and spawns the first
`check_update_task`, whose message seeds the queue. -/
def run (env : Env) (fuel : Nat) : List Status × Nat :=
  runAux env fuel [checkMessage (env.check 0)] 1 0

/-! ### Concrete fixtures used by counterexamples and witnesses -/

/-- Hexadecimal-character test, used only to state claims about the
spec's "64 hexadecimal characters" shape (the source never performs this
test). -/
def isHexChar (c : Char) : Bool :=
  (Nat.ble 48 c.toNat && Nat.ble c.toNat 57) ||
  (Nat.ble 97 c.toNat && Nat.ble c.toNat 102) ||
  (Nat.ble 65 c.toNat && Nat.ble c.toNat 70)

/-- A zip asset matching the `update` selection predicate. -/
def zipAsset : Asset :=
  ⟨str "golden-forgery-win.zip", str "application/zip", str "http://u"⟩

/-- A release carrying exactly the matching zip asset. -/
def r0 : Release := ⟨[zipAsset]⟩

/-- A one-entry manifest as delivered by the check oracle. -/
def h0 : Hash := ⟨str "h"⟩

/-- The path of the one manifest entry. -/
def p0 : RStr := str "f"

/-- The one-entry manifest. -/
def m0 : List (Hash × RStr) := [(h0, p0)]

/-- A disk on which no path exists and no file is readable. -/
def emptyDisk : DiskState := ⟨fun _ => false, fun _ => none⟩

/-- An update environment in which every effectful step succeeds. -/
def updOk : UpdateEnv := ⟨true, fun _ => some [], true, true, true, true⟩

/-- An update environment in which extraction fails. -/
def updExtractFail : UpdateEnv := ⟨true, fun _ => some [], true, true, true, false⟩

/-- A run environment: every check returns `r0` with manifest `m0`, the
file is always missing, every update succeeds. -/
def env0 : Env :=
  ⟨fun _ => Except.ok (r0, m0), fun _ => str "", emptyDisk, fun _ => updOk⟩

/-- Like `env0` but every update fails at the extraction step. -/
def envErr : Env :=
  ⟨fun _ => Except.ok (r0, m0), fun _ => str "", emptyDisk, fun _ => updExtractFail⟩

/-- A run environment whose manifest is empty, so that `compare_files`
returns no divergence. -/
def envEmpty : Env :=
  ⟨fun _ => Except.ok (r0, []), fun _ => str "", emptyDisk, fun _ => updOk⟩

/-- The digest carried by a manifest entry for a corrupt file. -/
def hashA : Hash := ⟨List.replicate 64 'a'⟩

/-- The digest the corrupt file actually hashes to. -/
def hashB : Hash := ⟨List.replicate 64 'b'⟩

/-- The path of the corrupt file. -/
def fileP : RStr := str "data.bin"

/-- A disk on which `fileP` exists and is readable. -/
def diskCorrupt : DiskState :=
  ⟨fun p => p == fileP, fun p => if p == fileP then some [0] else none⟩

/-- A hashing oracle whose output is always `hashB`'s text. -/
def hexB : List Nat → RStr := fun _ => List.replicate 64 'b'

/-- A well-formed 64-character digest field. -/
def digestLine : RStr := List.replicate 64 'a'

/-- A manifest text with two well-formed lines sharing one digest but
naming two distinct paths. -/
def twoPathText : RStr :=
  digestLine ++ sepStr ++ str "x" ++ [Char.ofNat 10] ++
    digestLine ++ sepStr ++ str "y"

/-- The entry sequence that `twoPathText` parses to (before the
`HashMap` collection step). -/
def twoPathEntries : List (Hash × RStr) :=
  [(⟨digestLine⟩, str "x"), (⟨digestLine⟩, str "y")]

/-! ### Helper lemmas -/

theorem updateAfterSelect_tmpRemoved (env : UpdateEnv) (url : RStr) :
    ((updateAfterSelect env url).2).tmpRemoved = false := by
  unfold updateAfterSelect
  repeat' split
  all_goals rfl

theorem updateAfterSelect_ne_zipNotFound (env : UpdateEnv) (url : RStr) :
    (updateAfterSelect env url).1 ≠ Except.error Error.ReleaseZipNotFound := by
  unfold updateAfterSelect
  repeat' split
  all_goals simp

theorem updateAfterSelect_selectedUrl (env : UpdateEnv) (url : RStr) :
    ((updateAfterSelect env url).2).selectedUrl = some url := by
  unfold updateAfterSelect
  repeat' split
  all_goals rfl

/-! ### Claims -/

/-- C1: the claim says Finished and Error are terminal states: once the
state machine enters them, no further transition occurs.  The code
violates this: the `BeginUpdate` handler chains `check_update_task()`
after the update task, so after a successful update the status becomes
`Finished` and is then overwritten by `Comparing` when the chained
re-check delivers `BeginCompare`; after a failed update the status
becomes `Error` and is likewise overwritten.  This theorem evaluates
both four-step traces. -/
theorem finished_and_error_not_terminal :
    (run env0 4).1 = [Status.Comparing m0, Status.Updating [p0],
      Status.Finished, Status.Comparing m0] ∧
    (run envErr 4).1 = [Status.Comparing m0, Status.Updating [p0],
      Status.Error Error.GenericError, Status.Comparing m0] := by decide

/-- C2 counterexample: the claim says parse fails with `InvalidDigest`
on every text that is not 64 hexadecimal characters, but `from_str`
accepts 64 `'z'` characters, which are not hexadecimal. -/
theorem from_str_accepts_nonhex :
    Hash.from_str (List.replicate 64 'z') =
      Except.ok ⟨List.replicate 64 'z'⟩ ∧
    (List.replicate 64 'z').all isHexChar = false ∧
    (List.replicate 64 'z').length = 64 := by decide

/-- C2 amended: `from_str` succeeds, returning the input text unchanged
(so it round-trips), exactly on inputs of UTF-8 byte length 64 —
hexadecimality is never checked — and fails with `InvalidHash` on every
input of any other byte length. -/
theorem from_str_length_check_only (s : RStr) :
    (rustLen s = 64 → Hash.from_str s = Except.ok ⟨s⟩) ∧
    (rustLen s ≠ 64 → Hash.from_str s = Except.error Error.InvalidHash) := by
  constructor <;> intro h <;> simp [Hash.from_str, h]

/-- Witness for `from_str_length_check_only` at a concrete 64-character
input. -/
theorem from_str_length_check_only_witness :
    Hash.from_str (List.replicate 64 'a') =
      Except.ok ⟨List.replicate 64 'a'⟩ :=
  (from_str_length_check_only (List.replicate 64 'a')).1 (by decide)

/-- C5: the claim says the temporary staging directory is removed on
every exit path of `update`.  The code calls
`TempDir::new("golden-forgery")...into_path()`, and `into_path` detaches
the directory from its RAII guard, so the directory is never removed on
any path; in particular a fully successful update returns `Ok` with the
staging directory still present. -/
theorem staging_dir_never_removed :
    (∀ (env : UpdateEnv) (r : Release), ((update env r).2).tmpRemoved = false) ∧
    (update updOk r0).1 = Except.ok () ∧
    (update updOk r0).2.tmpCreated = true := by
  refine ⟨fun env r => ?_, by decide, by decide⟩
  unfold update
  cases r.assets.find? isPackageAsset with
  | none => rfl
  | some a => exact updateAfterSelect_tmpRemoved env a.browser_download_url

/-- C6: the claim says `compare_files` flags exactly the missing,
unreadable, and digest-mismatched paths.  The code violates this for the
mismatch case: in the `Ok` branch, `if existing_file_hash ==
manifest_hash { continue; }` falls through without pushing when the
hashes differ, so a readable file whose digest differs from the manifest
digest is *not* reported.  Here `fileP` exists, hashes to `hashB ≠
hashA`, yet the divergence set is empty. -/
theorem compare_excludes_mismatched_digest :
    diskCorrupt.pathExists fileP = true ∧
    Hash.try_from hexB diskCorrupt fileP = Except.ok hashB ∧
    hashB ≠ hashA ∧
    compare_files hexB diskCorrupt [(hashA, fileP)] = [] := by decide

/-- C10: the repair performed by the `BeginUpdate` step does not depend
on the divergence set: for a fixed release and oracle indices, any two
non-empty divergence sets yield the same task messages and the same
update effects (selection, download, extraction), the effects being
those of `update`, which receives only the release; the set is stored
only in the `Updating` status. -/
theorem update_ignores_divergence_set (env : Env) (c u : Nat) (r : Release)
    (d1 d2 : List RStr) (hd1 : d1 ≠ []) (hd2 : d2 ≠ []) :
    (stepMessage env c u (Message.BeginUpdate r d1)).msgs =
      (stepMessage env c u (Message.BeginUpdate r d2)).msgs ∧
    (stepMessage env c u (Message.BeginUpdate r d1)).effects =
      (stepMessage env c u (Message.BeginUpdate r d2)).effects ∧
    (stepMessage env c u (Message.BeginUpdate r d1)).effects =
      some (update (env.upd u) r).2 ∧
    (stepMessage env c u (Message.BeginUpdate r d1)).status =
      Status.Updating d1 :=
  ⟨rfl, rfl, rfl, rfl⟩

/-- Witness for `update_ignores_divergence_set` at two concrete
non-empty divergence sets. -/
theorem update_ignores_divergence_set_witness :
    (stepMessage env0 1 0 (Message.BeginUpdate r0 [str "x"])).msgs =
      (stepMessage env0 1 0 (Message.BeginUpdate r0 [str "y", str "z"])).msgs ∧
    (stepMessage env0 1 0 (Message.BeginUpdate r0 [str "x"])).effects =
      (stepMessage env0 1 0 (Message.BeginUpdate r0 [str "y", str "z"])).effects ∧
    (stepMessage env0 1 0 (Message.BeginUpdate r0 [str "x"])).effects =
      some (update (env0.upd 0) r0).2 ∧
    (stepMessage env0 1 0 (Message.BeginUpdate r0 [str "x"])).status =
      Status.Updating [str "x"] :=
  update_ignores_divergence_set env0 1 0 r0 [str "x"] [str "y", str "z"]
    (by decide) (by decide)

theorem compare_files_sublist (hf : List Nat → RStr) (disk : DiskState)
    (m : List (Hash × RStr)) :
    List.Sublist (compare_files hf disk m) (m.map Prod.snd) := by
  induction m with
  | nil => simp [compare_files]
  | cons e rest ih =>
    obtain ⟨mh, p⟩ := e
    show List.Sublist (compare_files hf disk ((mh, p) :: rest))
      (p :: rest.map Prod.snd)
    rw [compare_files]
    by_cases hex : disk.pathExists p = false
    · rw [if_pos hex]
      exact List.Sublist.cons₂ p ih
    · rw [if_neg hex]
      cases htf : Hash.try_from hf disk p with
      | ok h =>
        show List.Sublist
          (if h = mh then compare_files hf disk rest else compare_files hf disk rest)
          (p :: rest.map Prod.snd)
        split
        · exact List.Sublist.cons p ih
        · exact List.Sublist.cons p ih
      | error err => exact List.Sublist.cons₂ p ih

/-- C4: `compare_files` is deterministic — equal hashing oracles, equal
disk states and equal manifests give equal divergence sets — and its
output lists paths in manifest iteration order: the result is a sublist
(order-preserving subsequence) of the manifest entry paths. -/
theorem compare_deterministic_ordered (hf1 hf2 : List Nat → RStr)
    (d1 d2 : DiskState) (m1 m2 : List (Hash × RStr))
    (hh : hf1 = hf2) (hd : d1 = d2) (hm : m1 = m2) :
    compare_files hf1 d1 m1 = compare_files hf2 d2 m2 ∧
    List.Sublist (compare_files hf1 d1 m1) (m1.map Prod.snd) := by
  subst hh; subst hd; subst hm
  exact ⟨rfl, compare_files_sublist hf1 d1 m1⟩

/-- Witness for `compare_deterministic_ordered` at a concrete manifest
and disk. -/
theorem compare_deterministic_ordered_witness :
    compare_files hexB diskCorrupt m0 = compare_files hexB diskCorrupt m0 ∧
    List.Sublist (compare_files hexB diskCorrupt m0) (m0.map Prod.snd) :=
  compare_deterministic_ordered hexB hexB diskCorrupt diskCorrupt m0 m0
    rfl rfl rfl

theorem runAux_nil (env : Env) (fuel c u : Nat) :
    runAux env fuel [] c u = ([], u) := by
  cases fuel <;> rfl

/-- C7: if the first check succeeds and `compare_files` returns an empty
divergence set, the run goes from `Comparing` directly to `Finished`,
the `Updating` status is never assigned, and `update` (hence the release
download) is never invoked, regardless of remaining fuel. -/
theorem empty_divergence_reaches_finished (env : Env) (r : Release)
    (m : List (Hash × RStr)) (fuel : Nat)
    (hc : env.check 0 = Except.ok (r, m))
    (he : compare_files env.hashHex env.disk m = []) :
    (run env (fuel + 2)).1 = [Status.Comparing m, Status.Finished] ∧
    (run env (fuel + 2)).2 = 0 := by
  have hrun : run env (fuel + 2) = ([Status.Comparing m, Status.Finished], 0) := by
    show runAux env (fuel + 1 + 1) [checkMessage (env.check 0)] 1 0 = _
    rw [hc]
    simp [checkMessage, runAux, stepMessage, he, runAux_nil]
  exact ⟨by rw [hrun], by rw [hrun]⟩

/-- Witness for `empty_divergence_reaches_finished` on the concrete
environment `envEmpty`, whose manifest is empty. -/
theorem empty_divergence_reaches_finished_witness :
    (run envEmpty 2).1 = [Status.Comparing [], Status.Finished] ∧
    (run envEmpty 2).2 = 0 :=
  empty_divergence_reaches_finished envEmpty r0 [] 0 rfl rfl

/-- C8: `update` fails with `ReleaseZipNotFound` exactly when no asset
of the release has content type `"application/zip"` together with a name
starting with `"golden-forgery"`; and when a matching asset exists, the
asset selected for download is the first matching one (so the unique
matching asset when there is exactly one), whose URL becomes the
download URL. -/
theorem release_zip_selection (env : UpdateEnv) (r : Release) :
    ((update env r).1 = Except.error Error.ReleaseZipNotFound ↔
      ∀ a ∈ r.assets, ¬ (isPackageAsset a = true)) ∧
    (∀ a ∈ r.assets, isPackageAsset a = true →
      ∃ b, r.assets.find? isPackageAsset = some b ∧ isPackageAsset b = true ∧
        (update env r).2.selectedUrl = some b.browser_download_url) := by
  constructor
  · cases hf : r.assets.find? isPackageAsset with
    | none =>
      have hval : (update env r).1 = Except.error Error.ReleaseZipNotFound := by
        unfold update; rw [hf]
      exact ⟨fun _ => List.find?_eq_none.mp hf, fun _ => hval⟩
    | some b =>
      have hb : isPackageAsset b = true := List.find?_some hf
      have hmem : b ∈ r.assets := List.mem_of_find?_eq_some hf
      have hval : (update env r).1 = (updateAfterSelect env b.browser_download_url).1 := by
        unfold update; rw [hf]
      constructor
      · intro hcontra
        rw [hval] at hcontra
        exact absurd hcontra (updateAfterSelect_ne_zipNotFound env _)
      · intro hall
        exact absurd hb (hall b hmem)
  · intro a ha hpa
    have hsome : (r.assets.find? isPackageAsset).isSome :=
      List.find?_isSome.mpr ⟨a, ha, hpa⟩
    obtain ⟨b, hf⟩ := Option.isSome_iff_exists.mp hsome
    have hval : (update env r).2 = (updateAfterSelect env b.browser_download_url).2 := by
      unfold update; rw [hf]
    refine ⟨b, hf, List.find?_some hf, ?_⟩
    rw [hval]
    exact updateAfterSelect_selectedUrl env b.browser_download_url

/-- Witness for `release_zip_selection` on the concrete release `r0`,
whose only asset matches the selection predicate. -/
theorem release_zip_selection_witness :
    ∃ b, r0.assets.find? isPackageAsset = some b ∧ isPackageAsset b = true ∧
      (update updOk r0).2.selectedUrl = some b.browser_download_url :=
  (release_zip_selection updOk r0).2 zipAsset (by decide) (by decide)

theorem parseLine_panicked_iff (l : RStr) :
    parseLine l = LineParse.panicked ↔
      ∃ a b, splitOnce sepStr l = some (a, b) ∧ rustLen a ≠ 64 := by
  unfold parseLine
  cases hs : splitOnce sepStr l with
  | none => simp
  | some ab =>
    obtain ⟨a, b⟩ := ab
    unfold Hash.from_str
    by_cases hl : rustLen a ≠ 64
    · simp [hl]
    · simp [hl]

theorem parseLinesAux_eq_none_iff (ls : List RStr) :
    parseLinesAux ls = none ↔ ∃ l ∈ ls, parseLine l = LineParse.panicked := by
  induction ls with
  | nil => simp [parseLinesAux]
  | cons l ls ih =>
    rw [parseLinesAux]
    cases hp : parseLine l with
    | skip => simp [hp, ih]
    | panicked => simp [hp]
    | entry e => simp [hp, ih, Option.map_eq_none']

theorem parseLinesAux_all_skip (ls : List RStr)
    (h : ∀ l ∈ ls, parseLine l = LineParse.skip) : parseLinesAux ls = some [] := by
  induction ls with
  | nil => rfl
  | cons l ls ih =>
    rw [parseLinesAux, h l (List.mem_cons_self l ls)]
    exact ih (fun x hx => h x (List.mem_cons_of_mem l hx))

/-- C3 counterexample: the claim says every non-empty line violating the
`<64-hex-digest><two spaces><relative-path>` shape aborts the whole
parse and no malformed line is silently ignored.  But the text
`"garbage"` is a single non-empty line without the two-space separator,
and the parse succeeds with an empty manifest: the line is silently
dropped by the `filter(Option::is_some)` step. -/
theorem separatorless_line_silently_skipped :
    Manifest.tryFrom (str "garbage") = some [] ∧
    str "garbage" ≠ [] ∧
    splitOnce sepStr (str "garbage") = none := by decide

/-- C3 amended: the parse aborts (panics via `unwrap`) exactly when some
line contains the two-space separator with a first field whose byte
length is not 64; a line without the separator — blank or not — is
silently skipped, so a text all of whose lines lack the separator parses
to the empty manifest. -/
theorem manifest_parse_abort_behavior (text : RStr) :
    (Manifest.tryFrom text = none ↔
      ∃ l ∈ rustLines text, ∃ a b,
        splitOnce sepStr l = some (a, b) ∧ rustLen a ≠ 64) ∧
    ((∀ l ∈ rustLines text, splitOnce sepStr l = none) →
      Manifest.tryFrom text = some []) := by
  constructor
  · rw [Manifest.tryFrom, Option.map_eq_none', parsedEntries,
      parseLinesAux_eq_none_iff]
    exact ⟨fun ⟨l, hl, hp⟩ => ⟨l, hl, (parseLine_panicked_iff l).mp hp⟩,
           fun ⟨l, hl, hp⟩ => ⟨l, hl, (parseLine_panicked_iff l).mpr hp⟩⟩
  · intro h
    have hskip : parsedEntries text = some [] :=
      parseLinesAux_all_skip _ (fun l hl => by rw [parseLine, h l hl])
    rw [Manifest.tryFrom, hskip]
    rfl

/-- Witness for `manifest_parse_abort_behavior`: a line with the
separator but a 2-byte digest field makes the parse abort. -/
theorem manifest_parse_abort_behavior_witness :
    Manifest.tryFrom (str "ab  cd") = none :=
  (manifest_parse_abort_behavior (str "ab  cd")).1.mpr
    ⟨str "ab  cd", by decide, str "ab", str "cd", by decide, by decide⟩

/-- The digests of a manifest map, in map order. -/
def keysOf (m : List (Hash × RStr)) : List Hash := m.map Prod.fst

@[simp] theorem keysOf_nil : keysOf [] = [] := rfl

@[simp] theorem keysOf_cons (x : Hash × RStr) (m : List (Hash × RStr)) :
    keysOf (x :: m) = x.1 :: keysOf m := rfl

theorem mem_keysOf_insertEntry {m : List (Hash × RStr)} {e : Hash × RStr}
    {k : Hash} :
    k ∈ keysOf (insertEntry m e) ↔ k ∈ keysOf m ∨ k = e.1 := by
  induction m with
  | nil => simp [insertEntry]
  | cons x rest ih =>
    rw [insertEntry]
    by_cases hx : x.1 = e.1
    · rw [if_pos hx]
      simp [hx]
      tauto
    · rw [if_neg hx]
      simp [ih]
      tauto

theorem nodup_keysOf_insertEntry {m : List (Hash × RStr)} {e : Hash × RStr}
    (h : (keysOf m).Nodup) : (keysOf (insertEntry m e)).Nodup := by
  induction m with
  | nil => simp [insertEntry]
  | cons x rest ih =>
    obtain ⟨hx, hrest⟩ := List.nodup_cons.mp h
    rw [insertEntry]
    by_cases hxe : x.1 = e.1
    · rw [if_pos hxe]
      exact List.nodup_cons.mpr ⟨by rw [← hxe]; exact hx, hrest⟩
    · rw [if_neg hxe]
      refine List.nodup_cons.mpr ⟨?_, ih hrest⟩
      intro hmem
      rcases mem_keysOf_insertEntry.mp hmem with h1 | h2
      · exact hx h1
      · exact hxe h2

theorem nodup_keysOf_collect (es : List (Hash × RStr)) :
    (keysOf (collectHashMap es)).Nodup := by
  have haux : ∀ (es' : List (Hash × RStr)) (acc : List (Hash × RStr)),
      (keysOf acc).Nodup → (keysOf (es'.foldl insertEntry acc)).Nodup := by
    intro es'
    induction es' with
    | nil => intro acc h; exact h
    | cons e rest ih =>
      intro acc h
      exact ih (insertEntry acc e) (nodup_keysOf_insertEntry h)
  exact haux es [] (by simp)

theorem mem_keysOf_collect {es : List (Hash × RStr)} {k : Hash}
    (h : k ∈ keysOf es) : k ∈ keysOf (collectHashMap es) := by
  have haux : ∀ (es' : List (Hash × RStr)) (acc : List (Hash × RStr)),
      k ∈ keysOf acc ∨ k ∈ keysOf es' →
      k ∈ keysOf (es'.foldl insertEntry acc) := by
    intro es'
    induction es' with
    | nil =>
      intro acc hor
      rcases hor with hacc | hes
      · exact hacc
      · simp at hes
    | cons e rest ih =>
      intro acc hor
      rw [List.foldl_cons]
      apply ih
      rcases hor with hacc | hes
      · exact Or.inl (mem_keysOf_insertEntry.mpr (Or.inl hacc))
      · rw [keysOf_cons, List.mem_cons] at hes
        rcases hes with he | hrest
        · exact Or.inl (mem_keysOf_insertEntry.mpr (Or.inr he))
        · exact Or.inr hrest
  exact haux es [] (Or.inr h)

theorem nodup_keys_unique {m : List (Hash × RStr)} {k : Hash} {p1 p2 : RStr}
    (hn : (keysOf m).Nodup) (h1 : (k, p1) ∈ m) (h2 : (k, p2) ∈ m) :
    p1 = p2 := by
  induction m with
  | nil => cases h1
  | cons x rest ih =>
    obtain ⟨hx, hrest⟩ := List.nodup_cons.mp hn
    rcases List.mem_cons.mp h1 with e1 | m1 <;>
      rcases List.mem_cons.mp h2 with e2 | m2
    · rw [← e1] at e2
      exact (Prod.mk.injEq _ _ _ _ ▸ e2).2.symm
    · have hk : k ∈ keysOf rest := List.mem_map_of_mem Prod.fst m2
      rw [← e1] at hx
      exact absurd hk hx
    · have hk : k ∈ keysOf rest := List.mem_map_of_mem Prod.fst m1
      rw [← e2] at hx
      exact absurd hk hx
    · exact ih hrest m1 m2

/-- C9: because the manifest map is keyed by digest, a manifest text
whose parsed entry sequence contains two well-formed lines with the same
digest but two distinct paths yields a manifest that has the digest, yet
holds at most one of the two paths for it — one entry shadows the
other. -/
theorem digest_key_shadowing (text : RStr) (es : List (Hash × RStr))
    (k : Hash) (p1 p2 : RStr)
    (hes : parsedEntries text = some es)
    (h1 : (k, p1) ∈ es) (h2 : (k, p2) ∈ es) (hne : p1 ≠ p2) :
    ∃ m, Manifest.tryFrom text = some m ∧ (∃ q, (k, q) ∈ m) ∧
      ¬ ((k, p1) ∈ m ∧ (k, p2) ∈ m) := by
  refine ⟨collectHashMap es, ?_, ?_, ?_⟩
  · rw [Manifest.tryFrom, hes]
    rfl
  · have hk : k ∈ keysOf (collectHashMap es) :=
      mem_keysOf_collect (List.mem_map_of_mem Prod.fst h1)
    obtain ⟨⟨k', q⟩, hmem, hfst⟩ := List.mem_map.mp hk
    exact ⟨q, by rwa [show k' = k from hfst] at hmem⟩
  · rintro ⟨hp1, hp2⟩
    exact hne (nodup_keys_unique (nodup_keysOf_collect es) hp1 hp2)

/-- Witness for `digest_key_shadowing` on the concrete two-line
manifest text `twoPathText`. -/
theorem digest_key_shadowing_witness :
    ∃ m, Manifest.tryFrom twoPathText = some m ∧
      (∃ q, ((⟨digestLine⟩ : Hash), q) ∈ m) ∧
      ¬ (((⟨digestLine⟩ : Hash), str "x") ∈ m ∧
         ((⟨digestLine⟩ : Hash), str "y") ∈ m) :=
  digest_key_shadowing twoPathText twoPathEntries ⟨digestLine⟩
    (str "x") (str "y") (by decide) (by decide) (by decide) (by decide)

end Updater
